import Mathlib

/-!
Verification development for `src/git-print-index.c`: a streaming decoder and
pretty-printer for the git index file format (12-byte header, per-entry
records, tagged extension blocks, trailing SHA-1 digest).

Embedding conventions:
  * The input `FILE *` is modelled as the list of bytes remaining on the
    stream; reads are sequential and never seek backwards, exactly as in the
    C code (which reads even to "skip").
  * The incremental `SHA_CTX` is modelled by the exact sequence of bytes fed
    to `SHA1_Update` so far; the SHA-1 compression itself is irrelevant to
    every property below and is abstracted as a function parameter where the
    final digest is compared.
  * Machine integers are modelled as `Nat` (values are decoded big-endian
    byte lists); all arithmetic stays far below every relevant word size on
    the inputs the theorems quantify over, so no wrap-around is modelled
    except where explicitly noted.
  * Fallible control flow is an explicit result type `Eff`: `.hang` marks a
    loop that provably never exits, `.abort` marks a failed `assert` or a
    dereference of NULL (both kill the process before producing output), and
    `.fuelOut` marks exhaustion of the step budget of a fuel-indexed loop.
  * `printf`/`fprintf` output is modelled as a list of events (`Msg`) for
    the statements that reveal decoded state or report errors; purely
    cosmetic formatting (column widths, permission strings, timestamps,
    box-drawing prefixes, uid/gid name lookup) is not modelled.
  * Only the default build configuration is executed by `main`
    (`LS_ENTRIES` undefined: report mode; `PLAIN_TREE` undefined: the
    recursive pretty tree printer); `read_tree`, the `PLAIN_TREE` variant,
    is embedded as well since theorems below concern it.
-/

/-- Embeds `struct ctx`: the byte source (`buf` = bytes remaining), the
manually maintained `file_pos`, the digest state (`sha_fed` = bytes fed to
`SHA1_Update` so far, in order), and the header-derived `version` and
`entry_count`. -/
structure Ctx where
  buf : List Nat
  file_pos : Nat
  sha_fed : List Nat
  version : Nat
  entry_count : Nat
deriving DecidableEq, Repr

/-- `c_fgetc`: one byte or EOF (`none`); a successful read feeds the byte to
the digest and advances `file_pos` by one. -/
def c_fgetc (c : Ctx) : Option Nat × Ctx :=
  match c.buf with
  | [] => (none, c)
  | b :: rest =>
    (some b, { c with buf := rest, file_pos := c.file_pos + 1, sha_fed := c.sha_fed ++ [b] })

/-- `c_fread` with element size 1: reads `min n (remaining)` bytes, feeds
exactly the bytes read to the digest, and advances `file_pos` by their
count. -/
def c_fread (n : Nat) (c : Ctx) : List Nat × Ctx :=
  let bs := c.buf.take n
  (bs, { c with buf := c.buf.drop n, file_pos := c.file_pos + bs.length, sha_fed := c.sha_fed ++ bs })

/-- Plain `fread` on the underlying stream, used only in `main`'s extension
loop ("Can't use c_fread here as we might be reading the final SHA-1"): the
bytes are consumed but neither digested nor counted into `file_pos` (the
caller updates `file_pos` itself when appropriate). -/
def fread_plain (n : Nat) (c : Ctx) : List Nat × Ctx :=
  let bs := c.buf.take n
  (bs, { c with buf := c.buf.drop n })

/-- `seek`: forward read-and-discard in chunks of at most 4096 bytes, which
feeds every skipped byte to the digest; stops when the request is satisfied
or a read returns 0 bytes. (The returned seeked amount is unused by all
callers and not modelled.) -/
def seekLoop : Nat → Ctx → Nat → Ctx
  | 0, c, _ => c
  | fuel + 1, c, remain =>
    if remain = 0 then c
    else
      let chunk := min remain 4096
      let (bs, c1) := c_fread chunk c
      if bs.length = 0 then c1
      else seekLoop fuel c1 (remain - bs.length)

/-- `seek` runs its while loop at most `remain` iterations (each one
consumes at least one byte or stops), so `seekLoop` with `remain` as the
iteration budget is the loop itself: when the budget is exhausted,
`remain` has already reached 0 and the loop has exited. -/
def seekGo (c : Ctx) (remain : Nat) : Ctx := seekLoop remain c remain

/-- Output events; only decode-relevant printf/fprintf statements are
modelled (see the header comment). -/
inductive Msg where
  | notGitIndex
  | banner (version count : Nat)
  | entryHeader (n : Nat)
  | entryFile (path : Option (List Nat))
  | extFlagsLong (flags : Nat)
  | nameLenMismatch (declared computed : Nat)
  | unexpectedEof
  | perrorReadingEntry
  | perrorAllocName
  | extAnnounce (sig : List Nat) (len off : Nat)
  | skipNote (sig : List Nat)
  | treePlainEntry (path : List Nat) (entryCount : Int) (subtrees : Nat) (sha : Option (List Nat))
  | readTooMuch
  | incompleteTree
  | prettyEntry (sha : Option (List Nat)) (path : List Nat) (entryCount : Int)
  | shortHashRead (got : Nat)
  | hashReport (stored computed : List Nat) (same : Bool)
deriving DecidableEq, Repr

/-- Result of running an embedded piece of the program: `.hang` = the C loop
provably never exits from this state; `.abort` = failed `assert` or NULL
dereference (process dies, output discarded); `.fuelOut` = the step budget
of a fuel-indexed loop ran out (no claim is made about the program there). -/
inductive Eff (α : Type) where
  | ok (a : α)
  | hang
  | abort
  | fuelOut
deriving DecidableEq, Repr

def Eff.bind {α β : Type} : Eff α → (α → Eff β) → Eff β
  | .ok a, f => f a
  | .hang, _ => .hang
  | .abort, _ => .abort
  | .fuelOut, _ => .fuelOut

@[simp] theorem Eff_bind_ok {α β : Type} (a : α) (f : α → Eff β) : (Eff.ok a).bind f = f a := rfl

@[simp] theorem Eff_bind_hang {α β : Type} (f : α → Eff β) : (Eff.hang : Eff α).bind f = .hang := rfl

@[simp] theorem Eff_bind_abort {α β : Type} (f : α → Eff β) : (Eff.abort : Eff α).bind f = .abort := rfl

@[simp] theorem Eff_bind_fuelOut {α β : Type} (f : α → Eff β) : (Eff.fuelOut : Eff α).bind f = .fuelOut := rfl

/-- The scanning loop of `alloc_string`: reads bytes (each `c_fgetc` feeds
the byte to the digest and advances the position, threaded here explicitly
over the remaining stream) until the terminator `t` is found (consumed,
excluded from the result, matching the returned `strlen`) or EOF is hit, in
which case the buffer is freed and NULL returned (`none`). Heap
reallocation is modelled as always succeeding. -/
def allocGo (t : Nat) : List Nat → Nat → List Nat → Option (List Nat) × List Nat × Nat × List Nat
  | [], p, d => (none, [], p, d)
  | b :: rest, p, d =>
    if b = t then (some [], rest, p + 1, d ++ [b])
    else
      match allocGo t rest (p + 1) (d ++ [b]) with
      | (none, rb, rp, rd) => (none, rb, rp, rd)
      | (some s, rb, rp, rd) => (some (b :: s), rb, rp, rd)

/-- `alloc_string`: the EOF case prints "Unexpected end of file while
scanning string." on stderr, exactly when the result is NULL. -/
def alloc_string (t : Nat) (c : Ctx) : Option (List Nat) × Ctx × List Msg :=
  match allocGo t c.buf c.file_pos c.sha_fed with
  | (none, rb, rp, rd) => (none, ⟨rb, rp, rd, c.version, c.entry_count⟩, [Msg.unexpectedEof])
  | (some s, rb, rp, rd) => (some s, ⟨rb, rp, rd, c.version, c.entry_count⟩, [])

/-- One accumulation step of `read_offset_delta`:
`offset = (offset << 7) | (buffer & 0x7F)`. -/
def rodStep (offset b : Nat) : Nat := (offset <<< 7) ||| (b &&& 127)

/-- The do/while loop of `read_offset_delta`. At EOF, `fgetc` keeps
returning EOF and `EOF & 0x80` is nonzero (EOF is -1), so the loop repeats
forever from an unchanged stream state: that is the `.hang` result
(`rodFuel` below is the step-indexed version of the same loop, used to state
this faithfully). `offset` is `ssize_t` in C; on every input a theorem
below quantifies over, its value stays far below 2^63, so `Nat` is exact. -/
def rodGo (v ec : Nat) : List Nat → Nat → List Nat → Nat → Nat → Eff (Nat × Nat × Ctx)
  | [], _, _, _, _ => .hang
  | b :: rest, p, d, offset, count =>
    if b &&& 128 ≠ 0 then rodGo v ec rest (p + 1) (d ++ [b]) (rodStep offset b) (count + 1)
    else .ok (rodStep offset b, count + 1, ⟨rest, p + 1, d ++ [b], v, ec⟩)

def rodLoop (c : Ctx) (offset count : Nat) : Eff (Nat × Nat × Ctx) :=
  rodGo c.version c.entry_count c.buf c.file_pos c.sha_fed offset count

/-- The post-loop bias of `read_offset_delta`:
`for (pow7 = 0x80; --byte_count; pow7 <<= 7) offset += pow7;`
(the `0` case is unreachable: the do/while loop always counts at least one
byte). -/
def biasAdd : Nat → Nat → Nat → Nat
  | 0, _, offset => offset
  | 1, _, offset => offset
  | k + 2, pow7, offset => biasAdd (k + 1) (pow7 <<< 7) (offset + pow7)

/-- `read_offset_delta`: the biased 7-bit varint decoder. -/
def read_offset_delta (c : Ctx) : Eff (Nat × Ctx) :=
  (rodLoop c 0 0).bind fun r => .ok (biasAdd r.2.1 128 r.1, r.2.2)

/-- Step-indexed version of the `read_offset_delta` loop, for the
termination claim: `none` means the loop has not exited within `fuel`
iterations. The EOF arm mirrors the C body exactly: `buffer = (uint8_t)EOF
= 0xFF`, the accumulator takes `(offset << 7) | 0x7F`, the count grows, and
since `EOF & 0x80 ≠ 0` the loop repeats with the stream state unchanged. -/
def rodFuel : Nat → Ctx → Nat → Nat → Option (Nat × Nat × Ctx)
  | 0, _, _, _ => none
  | fuel + 1, c, offset, count =>
    match c_fgetc c with
    | (none, c1) => rodFuel fuel c1 (rodStep offset 255) (count + 1)
    | (some b, c1) =>
      if b &&& 128 ≠ 0 then rodFuel fuel c1 (rodStep offset b) (count + 1)
      else some (rodStep offset b, count + 1, c1)

/-- Modelled from the spec: the biased 7-bit continuation ENCODING of the
pack-format offset-delta scheme ("Reads bytes while the high bit is set ...
add the bias"); the repository contains only the decoder, so the inverse is
taken from the spec's description of the scheme. Worker for
`encodeOffsetDelta`: prepends continuation bytes. -/
def encGo : Nat → List Nat → List Nat
  | 0, acc => acc
  | m + 1, acc => encGo (m >>> 7) ((128 + m % 128) :: acc)
termination_by m acc => m
decreasing_by
  have : m >>> 7 ≤ m := by
    rw [Nat.shiftRight_eq_div_pow]; exact Nat.div_le_self _ _
  omega

/-- Modelled from the spec: the biased 7-bit encoding of `n` (last byte has
the high bit clear and carries `n mod 128`; each earlier byte carries seven
more significant bits minus the cumulative bias). -/
def encodeOffsetDelta (n : Nat) : List Nat := encGo (n >>> 7) [n % 128]

/-- `geo k = 1 + 128 + ... + 128^(k-1)`: the cumulative bias divided by
128. -/
def geo : Nat → Nat
  | 0 => 0
  | k + 1 => 1 + 128 * geo k

/-- Model of C `atoi`: skip leading whitespace, optional sign, consume
digits greedily. (int overflow is undefined in C and not modelled; the
decoded tree counters stay small in every theorem below.) -/
def isSpaceByte (b : Nat) : Bool := b = 32 || (9 ≤ b && b ≤ 13)

def atoiDigits : List Nat → Nat → Nat
  | [], acc => acc
  | b :: rest, acc => if 48 ≤ b ∧ b ≤ 57 then atoiDigits rest (acc * 10 + (b - 48)) else acc

def atoiModel (s : List Nat) : Int :=
  let s1 := s.dropWhile isSpaceByte
  match s1 with
  | 45 :: rest => -(atoiDigits rest 0 : Int)
  | 43 :: rest => (atoiDigits rest 0 : Int)
  | _ => (atoiDigits s1 0 : Int)

/-- Embeds `struct tree` (its `file_name` member is never used by the C
code and is dropped; `sha1` is `[]` when `entry_count < 0`, where the C
struct holds unread stack bytes that are also never used). -/
structure TreeNode where
  path : List Nat
  entry_count : Int
  subtrees : Nat
  sha1 : List Nat
deriving DecidableEq, Repr

/-- `parse_tree_entry`: three `alloc_string` calls (NUL-, space-, and
newline-terminated), `atoi` on the two counter strings (the int-to-unsigned
conversion of `subtrees` wraps mod 2^32), then a 20-byte object id exactly
when `entry_count >= 0`. If `alloc_string` hit EOF the C code passes NULL
to `atoi` (and the first failure forces the later ones, since the stream
stays at EOF): that dereference is `.abort`. -/
def parse_tree_entry (c : Ctx) : Eff (TreeNode × Ctx × List Msg) :=
  let (pathQ, c1, ms1) := alloc_string 0 c
  let (ecQ, c2, ms2) := alloc_string 32 c1
  let (stQ, c3, ms3) := alloc_string 10 c2
  match pathQ, ecQ, stQ with
  | some path, some ecs, some sts =>
    let ec : Int := atoiModel ecs
    let st : Nat := ((atoiModel sts) % (2 ^ 32 : Int)).toNat
    if 0 ≤ ec then
      let (sha, c4) := c_fread 20 c3
      .ok ({ path := path, entry_count := ec, subtrees := st, sha1 := sha }, c4, ms1 ++ ms2 ++ ms3)
    else
      .ok ({ path := path, entry_count := ec, subtrees := st, sha1 := [] }, c3, ms1 ++ ms2 ++ ms3)
  | _, _, _ => .abort

/-- `read_tree` (the `PLAIN_TREE` variant): loop records while
`file_pos < endpos`, then report "We read too much" when the position
overshot the declared end. -/
def read_tree : Nat → Ctx → Nat → Eff (Ctx × List Msg)
  | 0, _, _ => .fuelOut
  | fuel + 1, c, endpos =>
    if c.file_pos < endpos then
      (parse_tree_entry c).bind fun (t, c1, msT) =>
        (read_tree fuel c1 endpos).bind fun (c2, ms) =>
          .ok (c2, msT ++ (Msg.treePlainEntry t.path t.entry_count t.subtrees
            (if 0 ≤ t.entry_count then some t.sha1 else none) :: ms))
    else
      .ok (c, if endpos < c.file_pos then [Msg.readTooMuch] else [])

/-- The `subtrees`-many sequential recursive calls of `pretty_read_tree`
(`subtrees - 1` with `a_last = false`, then one with `a_last = true`; the
flag drives only box-drawing text): `pr` is the recursive call at the next
nesting level, one unit of fuel down. -/
def prettyKidsGo (pr : Ctx → Eff (Ctx × List Msg)) : Nat → Ctx → Eff (Ctx × List Msg)
  | 0, c => .ok (c, [])
  | k + 1, c =>
    (pr c).bind fun (c1, ms1) =>
      (prettyKidsGo pr k c1).bind fun (c2, ms2) => .ok (c2, ms1 ++ ms2)

/-- `pretty_read_tree` (the default tree printer): at or past `endpos` it
stops, reporting "Incomplete tree" when inside a subtree (`level > 0`);
otherwise it decodes one record and recurses over `subtrees` children at
`level + 1`. The `a_last`/`tree_str` arguments drive only the box-drawing
text and are not modelled. -/
def pretty_read_tree : Nat → Ctx → Nat → Nat → Eff (Ctx × List Msg)
  | 0, _, _, _ => .fuelOut
  | fuel + 1, c, endpos, level =>
    if endpos ≤ c.file_pos then
      .ok (c, if 0 < level then [Msg.incompleteTree] else [])
    else
      (parse_tree_entry c).bind fun (t, c1, msT) =>
        (prettyKidsGo (fun cx => pretty_read_tree fuel cx endpos (level + 1))
            t.subtrees c1).bind fun (c2, ms) =>
          .ok (c2, msT ++ (Msg.prettyEntry
            (if 0 ≤ t.entry_count then some t.sha1 else none) t.path t.entry_count :: ms))

/-- The `while (ctx.file_pos < endpos) pretty_read_tree(&ctx, endpos, 0,
true, "")` loop of `main`'s TREE arm (default build). -/
def treeExtWhile : Nat → Ctx → Nat → Eff (Ctx × List Msg)
  | 0, _, _ => .fuelOut
  | fuel + 1, c, endpos =>
    if c.file_pos < endpos then
      (pretty_read_tree (fuel + 1) c endpos 0).bind fun (c1, ms1) =>
        (treeExtWhile fuel c1 endpos).bind fun (c2, ms2) => .ok (c2, ms1 ++ ms2)
    else .ok (c, [])

/-- Big-endian 16-bit value of the first two bytes (`ntohs`). -/
def be16 (bs : List Nat) : Nat := bs.getD 0 0 * 256 + bs.getD 1 0

/-- Big-endian 32-bit value of the first four bytes (`ntohl`). -/
def be32 (bs : List Nat) : Nat :=
  ((bs.getD 0 0 * 256 + bs.getD 1 0) * 256 + bs.getD 2 0) * 256 + bs.getD 3 0

/-- Embeds `struct entry`. Integer fields hold the decoded big-endian
values (their C signedness affects only the printed timestamps);
`file_name = none` is the NULL pointer; `file_name_len` holds
`(size_t)(-1) = 2^64 - 1` after a failed `alloc_string`, as in C;
the pad bytes' content is discarded by the program and not retained. -/
structure Entry where
  ctime : Nat
  ctime_ns : Nat
  mtime : Nat
  mtime_ns : Nat
  dev : Nat
  ino : Nat
  mode : Nat
  uid : Nat
  gid : Nat
  file_size : Nat
  sha1 : List Nat
  flags : Nat
  file_name : Option (List Nat)
  extended_flags : Nat
  prefixLen : Nat
  file_name_len : Nat
  pad_bytes_len : Nat
deriving DecidableEq, Repr

/-- The caller-side initializer `struct entry entry = { .extended_flags = 0 }`
(designated initializer: every other member is zero-initialized too). -/
def entryZero : Entry :=
  { ctime := 0, ctime_ns := 0, mtime := 0, mtime_ns := 0, dev := 0, ino := 0, mode := 0,
    uid := 0, gid := 0, file_size := 0, sha1 := List.replicate 20 0, flags := 0,
    file_name := none, extended_flags := 0, prefixLen := 0, file_name_len := 0,
    pad_bytes_len := 0 }

/-- The alignment-padding step at the end of `parse_index_entry`:
`if (version < 4 && file_pos % 8 != 4) { pad = 8 - ((file_pos - 4) % 8);
read pad bytes } else pad = 0`. The short-read case of the pad read is
unchecked in C and here alike. -/
def padStep (c : Ctx) : Ctx × Nat :=
  if c.version < 4 ∧ c.file_pos % 8 ≠ 4 then
    let padLen := 8 - (c.file_pos - 4) % 8
    let (_, c1) := c_fread padLen c
    (c1, padLen)
  else (c, 0)

/-- `parse_index_entry`: 62-byte fixed portion (big-endian fields), optional
extended flags (version ≥ 3 and flags bit 14), optional v4 prefix varint,
NUL-terminated name, optional alignment padding. Returns
(result, entry, ctx, messages); `result` is 0 on success, 1 on a short
62-byte read or a failed name read, exactly as in C. Unobservable
deviations from the C memory behaviour: on the two failure paths the C
struct keeps partially overwritten bytes, here the previous field values
are kept; a short extended-flags read likewise keeps the old value. -/
def parse_index_entry (c : Ctx) (e : Entry) : Eff (Nat × Entry × Ctx × List Msg) :=
  let (bs, c1) := c_fread 62 c
  if bs.length = 62 then
    let e1 := { e with
      ctime := be32 (bs.take 4), ctime_ns := be32 ((bs.drop 4).take 4),
      mtime := be32 ((bs.drop 8).take 4), mtime_ns := be32 ((bs.drop 12).take 4),
      dev := be32 ((bs.drop 16).take 4), ino := be32 ((bs.drop 20).take 4),
      mode := be32 ((bs.drop 24).take 4), uid := be32 ((bs.drop 28).take 4),
      gid := be32 ((bs.drop 32).take 4), file_size := be32 ((bs.drop 36).take 4),
      sha1 := (bs.drop 40).take 20, flags := be16 (bs.drop 60) }
    let (e2, c2) :=
      if c1.version ≥ 3 ∧ e1.flags &&& 16384 ≠ 0 then
        let (fb, c2x) := c_fread 2 c1
        ({ e1 with extended_flags := if fb.length = 2 then be16 fb else e1.extended_flags }, c2x)
      else (e1, c1)
    let step4 : Eff (Entry × Ctx) :=
      if c2.version ≥ 4 then
        (read_offset_delta c2).bind fun r => .ok ({ e2 with prefixLen := r.1 }, r.2)
      else .ok (e2, c2)
    step4.bind fun (e3, c3) =>
      let (nameQ, c4, msA) := alloc_string 0 c3
      match nameQ with
      | some nm =>
        let e4 := { e3 with file_name := some nm, file_name_len := nm.length }
        let (c5, padLen) := padStep c4
        .ok (0, { e4 with pad_bytes_len := padLen }, c5, msA)
      | none =>
        .ok (1, { e3 with file_name := none, file_name_len := 2 ^ 64 - 1 }, c4,
          msA ++ [Msg.perrorAllocName])
  else
    .ok (1, e, c1, [Msg.perrorReadingEntry])

/-- One iteration of the entry loop of `parse_index_stat` (report mode, the
default build). The version ≥ 4 block reconstructs the full path from the
previous one (`pn`): a nonzero first prefix or a prefix exceeding the
previous path's length fails an `assert` (the code comments say "Should be
an error check, not an assert"), and a NULL `file_name` reaches
`strdup`/`strlen` on NULL; all three are `.abort`. All printing happens
even when the entry parse failed (`res = 1`), from the stale struct. -/
def statIter (c : Ctx) (e : Entry) (pn : Option (List Nat)) (idx : Nat) :
    Eff (Ctx × Entry × Option (List Nat) × Nat × List Msg) :=
  (parse_index_entry c e).bind fun (res, e1, c1, msP) =>
    let step : Eff (Option (List Nat)) :=
      if c1.version ≥ 4 then
        match pn with
        | none =>
          if e1.prefixLen ≠ 0 then .abort
          else match e1.file_name with
            | none => .abort
            | some nm => .ok (some nm)
        | some p =>
          if ¬ e1.prefixLen ≤ p.length then .abort
          else match e1.file_name with
            | none => .abort
            | some nm => .ok (some (p.take (p.length - e1.prefixLen) ++ nm))
      else .ok pn
    step.bind fun pn1 =>
      let shownPath : Option (List Nat) := if c1.version ≥ 4 then pn1 else e1.file_name
      let msgs := msP ++ [Msg.entryHeader (idx + 1), Msg.entryFile shownPath,
        Msg.extFlagsLong e1.extended_flags] ++
        (if e1.file_name_len ≠ e1.flags &&& 4095 then
          [Msg.nameLenMismatch (e1.flags &&& 4095) e1.file_name_len] else [])
      .ok (c1, e1, pn1, res, msgs)

/-- The entry loop of `parse_index_stat`: always runs `entry_count`
iterations (the C for-loop has no break on a failed entry); only the last
iteration's `result` survives. -/
def statGo : Nat → Nat → Ctx → Entry → Option (List Nat) → Nat → Eff (Ctx × Nat × List Msg)
  | 0, _, c, _, _, res => .ok (c, res, [])
  | k + 1, idx, c, e, pn, res =>
    (statIter c e pn idx).bind fun (c1, e1, pn1, res1, ms1) =>
      (statGo k (idx + 1) c1 e1 pn1 res1).bind fun (c2, res2, ms2) =>
        .ok (c2, res2, ms1 ++ ms2)

/-- `parse_index_stat` (the default-mode entry decoder and reporter). The
C local `result` is uninitialized when `entry_count = 0` and discarded by
`main`; it starts as 0 here. -/
def parse_index_stat (c : Ctx) : Eff (Ctx × Nat × List Msg) :=
  statGo c.entry_count 0 c entryZero none 0

/-- `parse_header`: reads 12 bytes, stores version and entry_count
(big-endian) into the context, then checks the 4-byte signature against
"DIRC" = [68, 73, 82, 67]. `uninit12` models the uninitialized stack bytes
of `struct header` that remain in place after a short `fread`. -/
def parse_header (uninit12 : List Nat) (c : Ctx) : Nat × Ctx × List Msg :=
  let (bs, c1) := c_fread 12 c
  let hdr := bs ++ uninit12.drop bs.length
  let version := be32 ((hdr.drop 4).take 4)
  let count := be32 ((hdr.drop 8).take 4)
  let c2 := { c1 with version := version, entry_count := count }
  if hdr.take 4 ≠ [68, 73, 82, 67] then (1, c2, [Msg.notGitIndex])
  else (0, c2, [Msg.banner version count])

/-- The extension loop of `main`. Each iteration reads an 8-byte extension
header with plain `fread` (not digested: it may be the trailing digest) and
dispatches on the 4-byte tag: TREE feeds the 8 header bytes to the digest
(`SHA1_Update(&ctx.sha_ctx, &ext, 8)` after reversing the byte swap) and
runs the pretty tree loop; the six known skip tags (REUC, link, UNTR, FSMN,
EOIE, IEOT) `seek` over the payload WITHOUT ever digesting their 8 header
bytes; any other tag is assumed to be the stored digest: `SHA1_Final`,
read 12 more plain bytes, compare, report, and loop again. `f` abstracts
SHA-1 over the fed bytes. -/
def extLoop (f : List Nat → List Nat) : Nat → Ctx → Eff (Ctx × List Msg)
  | 0, _ => .fuelOut
  | fuel + 1, c =>
    let (hdr, cA) := fread_plain 8 c
    if hdr.length ≠ 8 then .ok (cA, [])
    else
      let cB := { cA with file_pos := cA.file_pos + 8 }
      let sig := hdr.take 4
      let len := be32 (hdr.drop 4)
      let endpos := cB.file_pos + len
      if sig = [84, 82, 69, 69] then
        let cC := { cB with sha_fed := cB.sha_fed ++ hdr }
        (treeExtWhile (fuel + 1) cC endpos).bind fun (cD, msT) =>
          (extLoop f fuel cD).bind fun (cE, msR) =>
            .ok (cE, Msg.extAnnounce sig len cB.file_pos :: (msT ++ msR))
      else if sig = [82, 69, 85, 67] ∨ sig = [108, 105, 110, 107] ∨ sig = [85, 78, 84, 82] ∨
          sig = [70, 83, 77, 78] ∨ sig = [69, 79, 73, 69] ∨ sig = [73, 69, 79, 84] then
        let cC := seekGo cB len
        (extLoop f fuel cC).bind fun (cE, msR) =>
          .ok (cE, [Msg.extAnnounce sig len cB.file_pos, Msg.skipNote sig] ++ msR)
      else
        let md := f cB.sha_fed
        let (bs12, cC) := fread_plain 12 cB
        let cD := { cC with file_pos := cC.file_pos + bs12.length }
        let hash := hdr ++ bs12
        (extLoop f fuel cD).bind fun (cE, msR) =>
          .ok (cE, (if bs12.length ≠ 12 then [Msg.shortHashRead bs12.length] else []) ++
            [Msg.hashReport hash md (decide (hash = md))] ++ msR)

/-- `main` for the default build, reading the given stream (stdin or a
successfully opened file): parse the header (exit 1 if its signature does
not match), run `parse_index_stat` DISCARDING its result, run the extension
loop, and return exit status 0. -/
def mainRun (fuel : Nat) (f : List Nat → List Nat) (uninit12 : List Nat) (stream : List Nat) :
    Eff (Nat × Ctx × List Msg) :=
  let c0 : Ctx := { buf := stream, file_pos := 0, sha_fed := [], version := 0, entry_count := 0 }
  match parse_header uninit12 c0 with
  | (r, c1, msH) =>
    if r ≠ 0 then .ok (1, c1, msH)
    else
      (parse_index_stat c1).bind fun (c2, _, msS) =>
        (extLoop f fuel c2).bind fun (c3, msE) =>
          .ok (0, c3, msH ++ msS ++ msE)

/-- A stand-in hash function for closed evaluations; every property proved
below about exit codes and digest inputs is independent of the hash. -/
def sha1Stub : List Nat → List Nat := fun _ => List.replicate 20 0

/-- Exit status projection of `mainRun` (`none` when the run aborted, hung,
or ran out of fuel). -/
def mainExit (fuel : Nat) (f : List Nat → List Nat) (uninit12 stream : List Nat) : Option Nat :=
  match mainRun fuel f uninit12 stream with
  | .ok (r, _, _) => some r
  | _ => none

/-- Message-list projection of `mainRun`. -/
def mainMsgs (fuel : Nat) (f : List Nat → List Nat) (uninit12 stream : List Nat) : List Msg :=
  match mainRun fuel f uninit12 stream with
  | .ok (_, _, ms) => ms
  | _ => []

/-- The bytes fed to the digest over a whole run (`none` when the run did
not complete). -/
def mainDigestFed (fuel : Nat) (f : List Nat → List Nat) (uninit12 stream : List Nat) :
    Option (List Nat) :=
  match mainRun fuel f uninit12 stream with
  | .ok (_, c, _) => some c.sha_fed
  | _ => none

theorem and127_eq_mod (b : Nat) : b &&& 127 = b % 128 := by
  have h := Nat.and_pow_two_sub_one_eq_mod b 7
  norm_num at h
  exact h

theorem shl7_lor_eq (a x : Nat) (hx : x < 128) : (a <<< 7) ||| x = 128 * a + x := by
  have hx' : x < 2 ^ 7 := hx
  apply Nat.eq_of_testBit_eq
  intro j
  rw [Nat.testBit_lor, Nat.testBit_shiftLeft]
  rw [show (128 : Nat) * a + x = 2 ^ 7 * a + x by ring]
  rw [Nat.testBit_mul_pow_two_add a hx' j]
  by_cases hj : j < 7
  · simp [hj, Nat.not_le.mpr hj]
  · have hge : 7 ≤ j := Nat.le_of_not_lt hj
    have hxf : x.testBit j = false :=
      Nat.testBit_eq_false_of_lt (lt_of_lt_of_le hx' (Nat.pow_le_pow_right (by norm_num) hge))
    simp [hj, hge, hxf]

theorem rodStep_eq (off b : Nat) : rodStep off b = 128 * off + b % 128 := by
  rw [rodStep, and127_eq_mod]
  exact shl7_lor_eq off (b % 128) (Nat.mod_lt _ (by norm_num))

theorem encGo_append : ∀ m acc, encGo m acc = encGo m [] ++ acc := by
  intro m
  induction m using Nat.strong_induction_on with
  | _ m ih =>
    intro acc
    match m with
    | 0 => simp [encGo]
    | m + 1 =>
      have hlt : m >>> 7 < m + 1 := by
        have : m >>> 7 ≤ m := by
          rw [Nat.shiftRight_eq_div_pow]; exact Nat.div_le_self _ _
        omega
      rw [encGo, encGo, ih _ hlt ((128 + m % 128) :: acc), ih _ hlt [128 + m % 128]]
      simp

theorem encGo_bytes : ∀ m, ∀ b ∈ encGo m [], 128 ≤ b ∧ b < 256 := by
  intro m
  induction m using Nat.strong_induction_on with
  | _ m ih =>
    match m with
    | 0 => intro b hb; simp [encGo] at hb
    | m + 1 =>
      have hlt : m >>> 7 < m + 1 := by
        have : m >>> 7 ≤ m := by
          rw [Nat.shiftRight_eq_div_pow]; exact Nat.div_le_self _ _
        omega
      intro b hb
      rw [encGo, encGo_append] at hb
      rcases List.mem_append.mp hb with h1 | h2
      · exact ih _ hlt b h1
      · have : b = 128 + m % 128 := by simpa using h2
        have := Nat.mod_lt m (show 0 < 128 by norm_num)
        omega

theorem encRaw_bias : ∀ m, List.foldl rodStep 0 (encGo m []) + geo (encGo m []).length = m := by
  intro m
  induction m using Nat.strong_induction_on with
  | _ m ih =>
    match m with
    | 0 => simp [encGo, geo]
    | m + 1 =>
      have hlt : m >>> 7 < m + 1 := by
        have : m >>> 7 ≤ m := by
          rw [Nat.shiftRight_eq_div_pow]; exact Nat.div_le_self _ _
        omega
      have ihm := ih _ hlt
      rw [encGo, encGo_append]
      rw [List.foldl_append, List.length_append]
      simp only [List.foldl_cons, List.foldl_nil, List.length_cons, List.length_nil]
      rw [rodStep_eq, geo]
      rw [Nat.shiftRight_eq_div_pow] at ihm ⊢
      have hdm := Nat.div_add_mod m 128
      norm_num at ihm ⊢
      omega

theorem biasAdd_eq : ∀ k pow off, biasAdd (k + 1) pow off = off + pow * geo k := by
  intro k
  induction k with
  | zero => intro pow off; simp [biasAdd, geo]
  | succ k ih =>
    intro pow off
    rw [show k + 1 + 1 = k + 2 by ring, biasAdd, ih, geo]
    rw [Nat.shiftLeft_eq]
    ring

theorem and128_eq_zero (b : Nat) (h : b < 128) : b &&& 128 = 0 := by
  have h2 := Nat.and_two_pow b 7
  norm_num at h2
  rw [h2, Nat.testBit_eq_false_of_lt (show b < 2 ^ 7 by norm_num; omega)]
  simp

theorem and128_ne_zero (b : Nat) (h1 : 128 ≤ b) (h2 : b < 256) : b &&& 128 ≠ 0 := by
  have hb : b = 2 ^ 7 * 1 + (b - 128) := by norm_num; omega
  have hlt : b - 128 < 2 ^ 7 := by norm_num; omega
  have ht : b.testBit 7 = true := by
    rw [hb, Nat.testBit_mul_pow_two_add 1 hlt 7]
    simp
  have h3 := Nat.and_two_pow b 7
  norm_num at h3
  rw [h3, ht]
  simp

theorem rodLoop_run : ∀ (bs : List Nat), (∀ b ∈ bs, 128 ≤ b ∧ b < 256) →
    ∀ (b0 : Nat), b0 < 128 → ∀ (rest : List Nat) (p : Nat) (d : List Nat) (v ec off cnt : Nat),
    rodLoop ⟨bs ++ b0 :: rest, p, d, v, ec⟩ off cnt =
      .ok (List.foldl rodStep off (bs ++ [b0]), cnt + (bs.length + 1),
        ⟨rest, p + (bs.length + 1), d ++ (bs ++ [b0]), v, ec⟩) := by
  intro bs
  induction bs with
  | nil =>
    intro _ b0 hb0 rest p d v ec off cnt
    dsimp only [rodLoop]
    simp only [List.nil_append]
    rw [rodGo]
    simp [and128_eq_zero b0 hb0]
  | cons b bs ih =>
    intro hbs b0 hb0 rest p d v ec off cnt
    have hb := hbs b (by simp)
    dsimp only [rodLoop]
    simp only [List.cons_append]
    rw [rodGo, if_pos (and128_ne_zero b hb.1 hb.2)]
    have ihx := ih (fun x hx => hbs x (by simp [hx])) b0 hb0 rest (p + 1) (d ++ [b]) v ec (rodStep off b) (cnt + 1)
    dsimp only [rodLoop] at ihx
    rw [ihx]
    simp only [List.foldl_cons, List.length_cons, List.cons_append, List.append_assoc,
      List.singleton_append, Eff.ok.injEq, Prod.mk.injEq, Ctx.mk.injEq]
    exact ⟨trivial, by omega, trivial, by omega, by simp, trivial, trivial⟩

theorem read_offset_delta_encode (n : Nat) (rest : List Nat) (p : Nat)
    (d : List Nat) (v ec : Nat) :
    read_offset_delta ⟨encodeOffsetDelta n ++ rest, p, d, v, ec⟩ =
      .ok (n, ⟨rest, p + (encodeOffsetDelta n).length, d ++ encodeOffsetDelta n, v, ec⟩) := by
  have hb0 : n % 128 < 128 := Nat.mod_lt _ (by norm_num)
  have hsplit : encodeOffsetDelta n = encGo (n >>> 7) [] ++ [n % 128] := by
    rw [encodeOffsetDelta, encGo_append]
  rw [read_offset_delta, hsplit, List.append_assoc, List.singleton_append]
  rw [rodLoop_run _ (encGo_bytes _) _ hb0 rest p d v ec 0 0]
  simp only [Eff_bind_ok]
  have hraw := encRaw_bias (n >>> 7)
  have hdm := Nat.div_add_mod n 128
  have hsr : n >>> 7 = n / 128 := by rw [Nat.shiftRight_eq_div_pow]
  rw [hsr] at hraw ⊢
  simp only [Eff.ok.injEq, Prod.mk.injEq, Ctx.mk.injEq]
  refine ⟨?_, trivial, ?_, trivial, trivial, trivial⟩
  · rw [Nat.zero_add, biasAdd_eq, List.foldl_append, List.foldl_cons, List.foldl_nil, rodStep_eq]
    omega
  · simp

def isEntryHeader : Msg → Bool
  | Msg.entryHeader _ => true
  | _ => false

theorem Eff_bind_eq_ok {α β : Type} {x : Eff α} {f : α → Eff β} {b : β}
    (h : x.bind f = .ok b) : ∃ a, x = .ok a ∧ f a = .ok b := by
  cases x <;> simp_all [Eff.bind]

theorem alloc_string_some_msgs {t : Nat} {c : Ctx} {s : List Nat} {c1 : Ctx} {ms : List Msg}
    (h : alloc_string t c = (some s, c1, ms)) : ms = [] := by
  rw [alloc_string] at h
  rcases hq : allocGo t c.buf c.file_pos c.sha_fed with ⟨q, rb, rp, rd⟩
  rw [hq] at h
  cases q <;> simp_all

theorem alloc_string_msgs_proj (t : Nat) (c : Ctx) :
    (alloc_string t c).2.2 = [] ∨ (alloc_string t c).2.2 = [Msg.unexpectedEof] := by
  rw [alloc_string]
  rcases allocGo t c.buf c.file_pos c.sha_fed with ⟨q, rb, rp, rd⟩
  cases q <;> simp

theorem parse_index_entry_countEH {c : Ctx} {e : Entry} {r : Nat} {e1 : Entry} {c1 : Ctx}
    {ms : List Msg} (h : parse_index_entry c e = .ok (r, e1, c1, ms)) :
    ms.countP isEntryHeader = 0 := by
  rw [parse_index_entry] at h
  split at h
  split at h
  case isFalse =>
    simp only [Eff.ok.injEq, Prod.mk.injEq] at h
    rcases h with ⟨_, _, _, hms⟩
    simp [← hms, isEntryHeader]
  case isTrue =>
    split at h
    all_goals try simp only [] at h
    all_goals split at h
    all_goals obtain ⟨rv, hmid, h⟩ := Eff_bind_eq_ok h
    all_goals try simp only [] at h
    all_goals split at h
    all_goals simp only [Eff.ok.injEq, Prod.mk.injEq] at h
    all_goals obtain ⟨_, _, _, hms⟩ := h
    all_goals rcases alloc_string_msgs_proj 0 rv.2 with hmsa | hmsa
    all_goals rw [hmsa] at hms
    all_goals simp [← hms, isEntryHeader]

theorem statIter_countEH {c : Ctx} {e : Entry} {pn : Option (List Nat)} {idx : Nat}
    {c1 : Ctx} {e1 : Entry} {pn1 : Option (List Nat)} {res : Nat} {ms : List Msg}
    (h : statIter c e pn idx = .ok (c1, e1, pn1, res, ms)) :
    ms.countP isEntryHeader = 1 := by
  rw [statIter] at h
  obtain ⟨⟨rP, eP, cP, msP⟩, hP, h⟩ := Eff_bind_eq_ok h
  simp only [] at h
  obtain ⟨pnv, hstep, h⟩ := Eff_bind_eq_ok h
  simp only [Eff.ok.injEq, Prod.mk.injEq] at h
  obtain ⟨_, _, _, _, hms⟩ := h
  rw [← hms, List.countP_append, List.countP_append, parse_index_entry_countEH hP]
  have h1 : List.countP isEntryHeader [Msg.entryHeader (idx + 1),
      Msg.entryFile (if cP.version ≥ 4 then pnv else eP.file_name),
      Msg.extFlagsLong eP.extended_flags] = 1 := by
    simp [List.countP_cons, isEntryHeader]
  rw [h1]
  split
  · simp [isEntryHeader]
  · simp

theorem statGo_countEH : ∀ (k idx : Nat) (c : Ctx) (e : Entry) (pn : Option (List Nat)) (res : Nat)
    {c2 : Ctx} {r : Nat} {ms : List Msg}, statGo k idx c e pn res = .ok (c2, r, ms) →
    ms.countP isEntryHeader = k := by
  intro k
  induction k with
  | zero =>
    intro idx c e pn res c2 r ms h
    rw [statGo] at h
    simp_all [Eff.ok.injEq]
  | succ k ih =>
    intro idx c e pn res c2 r ms h
    rw [statGo] at h
    obtain ⟨⟨cA, eA, pnA, resA, msA⟩, hA, h⟩ := Eff_bind_eq_ok h
    simp only [] at h
    obtain ⟨⟨cB, rB, msB⟩, hB, h⟩ := Eff_bind_eq_ok h
    simp only [Eff.ok.injEq, Prod.mk.injEq] at h
    obtain ⟨_, _, hms⟩ := h
    rw [← hms, List.countP_append, statIter_countEH hA, ih _ _ _ _ _ hB]
    omega

theorem parse_tree_entry_ok_msgs {c : Ctx} {t : TreeNode} {c1 : Ctx} {ms : List Msg}
    (h : parse_tree_entry c = .ok (t, c1, ms)) : ms = [] := by
  rw [parse_tree_entry] at h
  rcases h1 : alloc_string 0 c with ⟨pathQ, c1x, ms1⟩
  rw [h1] at h
  simp only [] at h
  rcases h2 : alloc_string 32 c1x with ⟨ecQ, c2x, ms2⟩
  rw [h2] at h
  simp only [] at h
  rcases h3 : alloc_string 10 c2x with ⟨stQ, c3x, ms3⟩
  rw [h3] at h
  simp only [] at h
  cases pathQ <;> cases ecQ <;> cases stQ <;> simp only [] at h
  all_goals try exact Eff.noConfusion h
  rename_i path ecs sts
  have e1 := alloc_string_some_msgs h1
  have e2 := alloc_string_some_msgs h2
  have e3 := alloc_string_some_msgs h3
  split at h <;>
    (simp only [Eff.ok.injEq, Prod.mk.injEq] at h
     obtain ⟨_, _, hms⟩ := h
     rw [← hms, e1, e2, e3]
     simp)

/-- C9 (amended): tree decoding stops at the first record boundary at which
the position has reached or passed the declared end, so a record may
overshoot it; in the `PLAIN_TREE` variant, whenever `read_tree` completes,
the final position is at or past `endpos` and "We read too much" is
reported exactly when it is strictly past (a deficit cannot terminate the
loop); in the default pretty variant an overrun is not reported at all
(see the counterexample). -/
theorem C9_read_tree_stops_at_or_past_end : ∀ (fuel : Nat) (c : Ctx) (endpos : Nat)
    (c2 : Ctx) (ms : List Msg),
    read_tree fuel c endpos = .ok (c2, ms) →
    endpos ≤ c2.file_pos ∧ (Msg.readTooMuch ∈ ms ↔ endpos < c2.file_pos) := by
  intro fuel
  induction fuel with
  | zero =>
    intro c endpos c2 ms h
    rw [read_tree] at h
    simp at h
  | succ fuel ih =>
    intro c endpos c2 ms h
    rw [read_tree] at h
    split at h
    · obtain ⟨⟨t, cT, msT⟩, hT, h⟩ := Eff_bind_eq_ok h
      simp only [] at h
      obtain ⟨⟨cR, msR⟩, hR, h⟩ := Eff_bind_eq_ok h
      simp only [Eff.ok.injEq, Prod.mk.injEq] at h
      obtain ⟨hc, hms⟩ := h
      subst hc
      have hrec := ih cT endpos _ _ hR
      have hmsT := parse_tree_entry_ok_msgs hT
      refine ⟨hrec.1, ?_⟩
      rw [← hms, hmsT]
      simp only [List.nil_append, List.mem_cons]
      rw [← hrec.2]
      simp
    · rename_i hge
      simp only [Eff.ok.injEq, Prod.mk.injEq] at h
      obtain ⟨hc, hms⟩ := h
      subst hc
      refine ⟨by omega, ?_⟩
      rw [← hms]
      by_cases hover : endpos < c.file_pos
      · rw [if_pos hover]; simp [hover]
      · rw [if_neg hover]; simp [hover]

theorem rodFuel_nil : ∀ (fuel p : Nat) (d : List Nat) (v ec off cnt : Nat),
    rodFuel fuel ⟨[], p, d, v, ec⟩ off cnt = none := by
  intro fuel
  induction fuel with
  | zero => intros; rw [rodFuel]
  | succ fuel ih =>
    intro p d v ec off cnt
    rw [rodFuel]
    simp only [c_fgetc]
    exact ih p d v ec (rodStep off 255) (cnt + 1)

theorem rodFuel_some_of_low : ∀ (bs : List Nat) (p : Nat) (d : List Nat) (v ec off cnt : Nat),
    (∃ b ∈ bs, b &&& 128 = 0) →
    ∃ fuel rr, rodFuel fuel ⟨bs, p, d, v, ec⟩ off cnt = some rr := by
  intro bs
  induction bs with
  | nil => intro p d v ec off cnt hex; simp at hex
  | cons b bs ih =>
    intro p d v ec off cnt hex
    by_cases hb : b &&& 128 = 0
    · refine ⟨1, (rodStep off b, cnt + 1, ⟨bs, p + 1, d ++ [b], v, ec⟩), ?_⟩
      rw [rodFuel]
      simp [c_fgetc, hb]
    · have hex2 : ∃ x ∈ bs, x &&& 128 = 0 := by
        rcases hex with ⟨x, hx, hx0⟩
        rcases List.mem_cons.mp hx with h1 | h1
        · subst h1; exact absurd hx0 hb
        · exact ⟨x, h1, hx0⟩
      obtain ⟨fuel, rr, hf⟩ := ih (p + 1) (d ++ [b]) v ec (rodStep off b) (cnt + 1) hex2
      refine ⟨fuel + 1, rr, ?_⟩
      rw [rodFuel]
      simp only [c_fgetc]
      rw [if_pos hb]
      exact hf

theorem rodFuel_low_of_some : ∀ (fuel : Nat) (c : Ctx) (off cnt : Nat)
    {rr : Nat × Nat × Ctx}, rodFuel fuel c off cnt = some rr →
    ∃ b ∈ c.buf, b &&& 128 = 0 := by
  intro fuel
  induction fuel with
  | zero =>
    intro c off cnt rr h
    rw [rodFuel] at h
    exact absurd h (by simp)
  | succ fuel ih =>
    intro c off cnt rr h
    obtain ⟨bs, p, d, v, ec⟩ := c
    rw [rodFuel] at h
    rcases bs with _ | ⟨b, bs⟩
    · simp only [c_fgetc] at h
      rw [rodFuel_nil] at h
      exact absurd h (by simp)
    · simp only [c_fgetc] at h
      by_cases hb : b &&& 128 = 0
      · exact ⟨b, by simp, hb⟩
      · rw [if_pos hb] at h
        obtain ⟨x, hx, hx0⟩ := ih _ _ _ h
        exact ⟨x, by simp at hx ⊢; exact Or.inr hx, hx0⟩

/-- The 12 bytes sitting in `struct header` after the header `fread`: the
stream's first bytes, with the uninitialized stack bytes surviving a short
read. -/
def headerBytes (uninit12 stream : List Nat) : List Nat :=
  stream.take 12 ++ uninit12.drop (stream.take 12).length

/-- C2 (amended): whenever `main` runs to completion and returns an exit
status, that status is 1 exactly when the 4-byte header signature does not
match "DIRC"; every later fatal decoding failure (truncated entry,
unreadable name, allocation failure) leaves the exit status 0, because
`main` discards the result of `parse_index_stat` and returns 0 after the
extension loop. -/
theorem C2_exit_status_iff {fuel : Nat} {f : List Nat → List Nat} {uninit12 stream : List Nat}
    {r : Nat} {c : Ctx} {ms : List Msg}
    (h : mainRun fuel f uninit12 stream = .ok (r, c, ms)) :
    (r = 1 ↔ (headerBytes uninit12 stream).take 4 ≠ [68, 73, 82, 67]) := by
  rw [mainRun, parse_header] at h
  simp only [c_fread] at h
  rw [headerBytes]
  split at h
  · rename_i hsig
    simp only [if_pos (by simp : (1 : Nat) ≠ 0), Eff.ok.injEq, Prod.mk.injEq] at h
    simp only [h.1.symm]
    simpa using hsig
  · rename_i hsig
    simp only [if_neg (by simp : ¬(0 : Nat) ≠ 0)] at h
    obtain ⟨⟨cS, rS, msS⟩, hS, h⟩ := Eff_bind_eq_ok h
    simp only [] at h
    obtain ⟨⟨cE, msE⟩, hE, h⟩ := Eff_bind_eq_ok h
    simp only [Eff.ok.injEq, Prod.mk.injEq] at h
    obtain ⟨hr, _, _⟩ := h
    simp only [← hr]
    constructor
    · intro h0; exact absurd h0 (by simp)
    · intro hcond; exact absurd hcond (by simpa using hsig)

theorem c_fread_file_pos (n : Nat) (c : Ctx) :
    (c_fread n c).2.file_pos = c.file_pos + min n c.buf.length := by
  simp [c_fread, List.length_take]

/-- C6: the padding step of `parse_index_entry`. For version < 4 the pad
length is `8 - ((file_pos - 4) mod 8)`, special-cased to 0 when the
position is already 4 mod 8, and consuming it (possible whenever the stream
still holds that many bytes) leaves `(file_pos - 4) mod 8 = 0`; for
version ≥ 4 the step consumes nothing. -/
theorem C6_padding_invariant (c : Ctx) (h4 : 4 ≤ c.file_pos) :
    (c.version < 4 →
      ((padStep c).2 = if c.file_pos % 8 = 4 then 0 else 8 - (c.file_pos - 4) % 8) ∧
      ((padStep c).2 ≤ c.buf.length → ((padStep c).1.file_pos - 4) % 8 = 0)) ∧
    (4 ≤ c.version → padStep c = (c, 0)) := by
  constructor
  · intro hv
    by_cases hal : c.file_pos % 8 = 4
    · have : ¬ (c.version < 4 ∧ c.file_pos % 8 ≠ 4) := by simp [hal]
      rw [padStep, if_neg this]
      simp [hal]
      omega
    · have hc : c.version < 4 ∧ c.file_pos % 8 ≠ 4 := ⟨hv, hal⟩
      rw [padStep, if_pos hc]
      simp only [if_neg hal]
      refine ⟨by simp, ?_⟩
      intro hlen
      simp only [c_fread_file_pos] at hlen ⊢
      omega
  · intro hv
    have : ¬ (c.version < 4 ∧ c.file_pos % 8 ≠ 4) := by omega
    rw [padStep, if_neg this]

/-- C6 witness: a version-2 context at offset 70 with 7 bytes left: the pad
length is 6 and consuming it lands on an offset that is 4 mod 8. -/
theorem C6_padding_invariant_witness :
    ((2 < 4 →
      ((padStep ⟨List.replicate 7 0, 70, [], 2, 1⟩).2 =
        if (70 : Nat) % 8 = 4 then 0 else 8 - ((70 : Nat) - 4) % 8) ∧
      ((padStep ⟨List.replicate 7 0, 70, [], 2, 1⟩).2 ≤ (List.replicate 7 (0 : Nat)).length →
        ((padStep ⟨List.replicate 7 0, 70, [], 2, 1⟩).1.file_pos - 4) % 8 = 0)) ∧
    (4 ≤ 2 → padStep ⟨List.replicate 7 0, 70, [], 2, 1⟩ = (⟨List.replicate 7 0, 70, [], 2, 1⟩, 0))) :=
  C6_padding_invariant ⟨List.replicate 7 0, 70, [], 2, 1⟩ (by norm_num)

/-- Big-endian 4-byte encoding of a 32-bit value, used to quantify theorem
statements over arbitrary header fields. -/
def be32enc (n : Nat) : List Nat :=
  [n / 16777216 % 256, n / 65536 % 256, n / 256 % 256, n % 256]

theorem be32_be32enc (n : Nat) (h : n < 2 ^ 32) : be32 (be32enc n) = n := by
  rw [be32enc, be32]
  simp only [List.getD]
  simp
  omega

/-- C8 (amended): a 12-byte header whose signature matches accepts ANY
version: `parse_header` succeeds (result 0), stores version and entry
count, and the only output is the normal banner line (which echoes the
version number); no version validation and no "unrecognized version"
report exist. -/
def uninitZero : List Nat := List.replicate 12 0

theorem C8_any_version_accepted (ver cnt : Nat) (hver : ver < 2 ^ 32) (hcnt : cnt < 2 ^ 32)
    (rest : List Nat) (p : Nat) (d : List Nat) (v0 e0 : Nat) :
    parse_header uninitZero
      ⟨[68, 73, 82, 67] ++ be32enc ver ++ be32enc cnt ++ rest, p, d, v0, e0⟩ =
      (0, ⟨rest, p + 12, d ++ ([68, 73, 82, 67] ++ be32enc ver ++ be32enc cnt), ver, cnt⟩,
        [Msg.banner ver cnt]) := by
  rw [parse_header]
  simp only [c_fread, be32enc]
  simp only [List.cons_append, List.nil_append, List.take_succ_cons, List.take_zero,
    List.drop_succ_cons, List.drop_zero, List.length_cons]
  norm_num [uninitZero, be32, List.getD]
  repeat' apply And.intro
  all_goals omega

/-- C4: the varint decoder implements the biased 7-bit continuation scheme
(accumulate `(value << 7) | (byte & 0x7F)` while the high bit is set, then
add the cumulative biases 0x80, 0x80 << 7, ... for n-1 terms), and for
every `n < 2^32`, decoding the biased encoding of `n` from the stream
yields exactly `n`, consuming exactly the encoding's bytes (all digested,
position advanced by their count). -/
theorem C4_varint_roundtrip (n : Nat) (hn : n < 2 ^ 32) (rest : List Nat) (p : Nat)
    (d : List Nat) (v ec : Nat) :
    read_offset_delta ⟨encodeOffsetDelta n ++ rest, p, d, v, ec⟩ =
      .ok (n, ⟨rest, p + (encodeOffsetDelta n).length, d ++ encodeOffsetDelta n, v, ec⟩) :=
  read_offset_delta_encode n rest p d v ec

/-- C4 witness: decoding the encoding of 300 (bytes [129, 44]) yields 300. -/
theorem C4_varint_roundtrip_witness :
    read_offset_delta ⟨encodeOffsetDelta 300 ++ [], 0, [], 4, 1⟩ =
      .ok (300, ⟨[], 0 + (encodeOffsetDelta 300).length, [] ++ encodeOffsetDelta 300, 4, 1⟩) :=
  C4_varint_roundtrip 300 (by norm_num) [] 0 [] 4 1

/-- C1 failing input: a well-formed stream with one zero-length REUC
extension followed by the 20 stored digest bytes. -/
def SC1 : List Nat :=
  [68, 73, 82, 67, 0, 0, 0, 2, 0, 0, 0, 0] ++ ([82, 69, 85, 67] ++ [0, 0, 0, 0]) ++
    List.replicate 20 0

/-- C1 (code evaluated at the failing input): for any hash function, the
bytes fed to the digest over the whole run are only the 12 header bytes:
the 8-byte REUC extension header (stream bytes 12..19) is read with plain
`fread` and never fed to the digest (only the TREE arm re-feeds its
header), so the digest input is NOT the claimed range (everything up to the
stored digest, `SC1.take (SC1.length - 20)`). -/
theorem C1_skipped_ext_header_not_digested (f : List Nat → List Nat) :
    mainDigestFed 10 f uninitZero SC1 = some (SC1.take 12) ∧
    SC1.take 12 ≠ SC1.take (SC1.length - 20) := by
  constructor
  · rfl
  · decide

/-- C2 failing input: a well-signed header announcing one entry, then EOF. -/
def SC2 : List Nat := [68, 73, 82, 67, 0, 0, 0, 2, 0, 0, 0, 1]

/-- C2 counterexample: the single entry's 62-byte read fails fatally (the
IoError `perror("Reading index entry")` is emitted), yet the process exit
status is 0, not 1: `main` discards the result of `parse_index_stat`. -/
theorem C2_truncated_entry_exits_zero :
    mainExit 10 sha1Stub uninitZero SC2 = some 0 ∧
    (mainMsgs 10 sha1Stub uninitZero SC2).count Msg.perrorReadingEntry = 1 := by
  constructor
  · rfl
  · rfl

/-- C2 witness: a stream whose first four bytes are not "DIRC" completes
with exit status 1. -/
theorem C2_exit_status_iff_witness :
    ((1 : Nat) = 1 ↔ (headerBytes uninitZero [0, 0, 0, 0]).take 4 ≠ [68, 73, 82, 67]) :=
  @C2_exit_status_iff 10 sha1Stub uninitZero [0, 0, 0, 0] 1
    ⟨[], 4, [0, 0, 0, 0], 0, 0⟩ [Msg.notGitIndex] (by rfl)

/-- C3 counterexample: version 2, entry_count 2, and only 10 stream bytes:
entry 1 fails fatally on its short 62-byte read, yet entry 2 is still
decoded (and fails the same way): the loop does not stop at the first fatal
result, so two IoError reports are emitted. -/
theorem C3_cex_loop_continues_after_fatal :
    (match parse_index_stat ⟨List.replicate 10 7, 12, [], 2, 2⟩ with
      | .ok (_, _, ms) => ms.count Msg.perrorReadingEntry
      | _ => 0) = 2 := by decide

/-- C3 (amended): the entry loop of `parse_index_stat` always performs
`entry_count` decode iterations, fatal or not (one "Entry n:" report per
iteration); a fatal failure does not stop the loop, and short reads in the
extended-flags and padding steps are not even detected. -/
theorem C3_all_entries_attempted {c : Ctx} {c2 : Ctx} {r : Nat} {ms : List Msg}
    (h : parse_index_stat c = .ok (c2, r, ms)) :
    ms.countP isEntryHeader = c.entry_count := by
  rw [parse_index_stat] at h
  exact statGo_countEH _ _ _ _ _ _ h

/-- C3 witness: a 2-entry session over a 10-byte stream performs exactly 2
iterations. -/
theorem C3_all_entries_attempted_witness :
    ([Msg.perrorReadingEntry, Msg.entryHeader 1, Msg.entryFile none, Msg.extFlagsLong 0,
      Msg.perrorReadingEntry, Msg.entryHeader 2, Msg.entryFile none, Msg.extFlagsLong 0] :
        List Msg).countP isEntryHeader = 2 :=
  @C3_all_entries_attempted ⟨List.replicate 10 9, 12, [], 2, 2⟩
    ⟨[], 22, [9, 9, 9, 9, 9, 9, 9, 9, 9, 9], 2, 2⟩ 1
    [Msg.perrorReadingEntry, Msg.entryHeader 1, Msg.entryFile none, Msg.extFlagsLong 0,
      Msg.perrorReadingEntry, Msg.entryHeader 2, Msg.entryFile none, Msg.extFlagsLong 0]
    (by decide)

/-- C5 failing input: a version-4 session whose first entry carries
path_prefix_len 1 (varint byte 0x01) and name "a". -/
def SC5buf : List Nat := List.replicate 60 0 ++ [0, 1] ++ [1] ++ [97, 0]

/-- C5 (code evaluated at the failing input): the first entry of a v4
session with a nonzero path_prefix_len makes `parse_index_stat` die on
`assert(entry.prefix == 0)` (modelled `.abort`): the process aborts with no
FormatError report, where the claim requires a FormatError. -/
theorem C5_nonzero_first_prefix_aborts :
    parse_index_stat ⟨SC5buf, 12, [], 4, 1⟩ = .abort := by decide

/-- C7 failing input: version 3, two entries; entry 1 has flags bit 14 set
and extended_flags 0x2000; entry 2 has bit 14 clear. -/
def SC7buf : List Nat :=
  (List.replicate 60 0 ++ [64, 1] ++ [32, 0] ++ [97, 0] ++ List.replicate 6 0) ++
    (List.replicate 60 0 ++ [0, 1] ++ [98, 0])

def extFlagsVal : Msg → Option Nat
  | Msg.extFlagsLong v => some v
  | _ => none

/-- C7 (code evaluated at the failing input): the reported extended_flags
values of the two entries are [0x2000, 0x2000]: entry 2, whose condition
(version ≥ 3 and flags bit 14) does NOT hold, reports entry 1's stale value
instead of zero, because the C `struct entry` is reused across loop
iterations without resetting the field. -/
theorem C7_stale_extended_flags :
    (match parse_index_stat ⟨SC7buf, 12, [], 3, 2⟩ with
      | .ok (_, _, ms) => ms.filterMap extFlagsVal
      | _ => []) = [8192, 8192] := by decide

/-- C8 counterexample: a "DIRC" header with version 5: `parse_header`
accepts it (result 0) and the COMPLETE output is the ordinary banner; no
"unrecognized version" report exists anywhere in the code. -/
theorem C8_cex_no_version_report :
    parse_header uninitZero ⟨[68, 73, 82, 67, 0, 0, 0, 5, 0, 0, 0, 0], 0, [], 0, 0⟩ =
      (0, ⟨[], 12, [68, 73, 82, 67, 0, 0, 0, 5, 0, 0, 0, 0], 5, 0⟩, [Msg.banner 5 0]) := by
  decide

/-- C8 witness: version 7, entry count 3. -/
theorem C8_any_version_accepted_witness :
    parse_header uninitZero ⟨[68, 73, 82, 67] ++ be32enc 7 ++ be32enc 3 ++ [9], 1, [5], 0, 0⟩ =
      (0, ⟨[9], 1 + 12, [5] ++ ([68, 73, 82, 67] ++ be32enc 7 ++ be32enc 3), 7, 3⟩,
        [Msg.banner 7 3]) :=
  C8_any_version_accepted 7 3 (by norm_num) (by norm_num) [9] 1 [5] 0 0

/-- C9 failing payload: one tree record of 7 bytes: path "x", entry_count
-1, subtree count 0. -/
def SC9buf : List Nat := [120, 0, 45, 49, 32, 48, 10]

/-- C9 counterexample (the default pretty variant): with declared extension
end 22 but a first record ending at 27, the loop terminates with 27 ≠ 22
bytes consumed and reports neither "We read too much" nor "Incomplete
tree". -/
theorem C9_cex_overrun_unreported :
    treeExtWhile 10 ⟨SC9buf, 20, [], 2, 0⟩ 22 =
      .ok (⟨[], 27, SC9buf, 2, 0⟩, [Msg.prettyEntry none [120] (-1)]) ∧
    (27 : Nat) ≠ 22 ∧
    Msg.readTooMuch ∉ [Msg.prettyEntry none [120] (-1)] ∧
    Msg.incompleteTree ∉ [Msg.prettyEntry none [120] (-1)] := by decide

/-- C9 witness: a plain-variant run that overshoots (27 > 22) and reports
"We read too much". -/
theorem C9_read_tree_stops_witness :
    22 ≤ 27 ∧
    (Msg.readTooMuch ∈ [Msg.treePlainEntry [121] (-1) 0 none, Msg.readTooMuch] ↔ 22 < 27) :=
  C9_read_tree_stops_at_or_past_end 5 ⟨[121, 0, 45, 49, 32, 48, 10], 20, [], 2, 0⟩ 22
    ⟨[], 27, [121, 0, 45, 49, 32, 48, 10], 2, 0⟩
    [Msg.treePlainEntry [121] (-1) 0 none, Msg.readTooMuch] (by decide)

/-- C10 counterexample: at EOF (empty remaining stream) the
`read_offset_delta` loop never terminates: no iteration budget makes the
step-indexed loop exit, because `EOF & 0x80` is nonzero and the stream
state never changes. -/
theorem C10_cex_eof_never_terminates :
    ¬ ∃ fuel rr, rodFuel fuel ⟨[], 0, [], 4, 1⟩ 0 0 = some rr := by
  rintro ⟨fuel, rr, h⟩
  rw [rodFuel_nil] at h
  exact Option.noConfusion h

/-- C10 (amended): the `read_offset_delta` loop terminates if and only if
the remaining stream contains a byte with the high continuation bit clear;
in particular it does NOT terminate on a stream that reaches EOF first. -/
theorem C10_terminates_iff (bs : List Nat) (p : Nat) (d : List Nat) (v ec off cnt : Nat) :
    (∃ fuel rr, rodFuel fuel ⟨bs, p, d, v, ec⟩ off cnt = some rr) ↔
    (∃ b ∈ bs, b &&& 128 = 0) := by
  constructor
  · rintro ⟨fuel, rr, h⟩
    exact rodFuel_low_of_some fuel _ off cnt h
  · exact rodFuel_some_of_low bs p d v ec off cnt
